import Mathlib

/-!
Verification development for nasa_iotd.py (NASA "Image of the Day" fetcher).

The script downloads a JPEG named in NASA's RSS feed, resizes it to fit the
screen resolution, letterboxes it on a black canvas, overlays the feed
description, and writes the result as a JPEG.

Python strings are modelled as lists of characters (type PStr below); Python
floats are modelled as rationals; machine behaviour that can raise exceptions
is modelled with Except.  The definitions are transcribed from
src/nasa_iotd.py; the two image-library primitives whose behaviour the script
relies on (PIL.Image.thumbnail's output-size computation and os.path.join) are
transcribed from their Pillow ≥ 8 / CPython implementations, which the source
pins via its use of ImageDraw.textbbox.
-/

/-- Model of a Python string: a list of characters. -/
abbrev PStr := List Char

/-- Characters treated as whitespace by Python's str.split() (ASCII fragment:
space, tab, newline, carriage return, vertical tab, form feed). -/
def pyIsSpace (c : Char) : Bool :=
  c = ' ' ∨ c = '\t' ∨ c = '\n' ∨ c = '\r' ∨ c = '\x0b' ∨ c = '\x0c'

/-- Characters that terminate a line for Python's str.splitlines()
(ASCII fragment). -/
def isLineBreak (c : Char) : Bool :=
  c = '\n' ∨ c = '\r' ∨ c = '\x0b' ∨ c = '\x0c'

/-- Worker for pySplit: acc holds the characters of the word currently being
read, in reverse order. -/
def pySplitAux : PStr → PStr → List PStr
  | [], acc => if acc = [] then [] else [acc.reverse]
  | c :: cs, acc =>
    if pyIsSpace c then
      if acc = [] then pySplitAux cs [] else acc.reverse :: pySplitAux cs []
    else pySplitAux cs (c :: acc)

/-- Python str.split() with no argument: split on runs of whitespace and drop
empty pieces. -/
def pySplit (s : PStr) : List PStr := pySplitAux s []

/-- Python sep.join(pieces). -/
def joinWith (sep : PStr) : List PStr → PStr
  | [] => []
  | [w] => w
  | w :: ws => w ++ sep ++ joinWith sep ws

/-- Worker for pySplitlines; a carriage return immediately followed by a line
feed counts as a single break, as in CPython (the line feed is consumed with
it). -/
def pySplitlinesAux : PStr → PStr → List PStr
  | [], acc => if acc = [] then [] else [acc.reverse]
  | c :: cs, acc =>
    if isLineBreak c then
      acc.reverse ::
        pySplitlinesAux (if c = '\r' ∧ cs.head? = some '\n' then cs.tail else cs) []
    else pySplitlinesAux cs (c :: acc)
termination_by cs _ => cs.length
decreasing_by
  · split
    · have h := List.length_tail cs
      simp only [List.length_cons]
      omega
    · simp only [List.length_cons]
      omega
  · simp only [List.length_cons]
    omega

/-- Python str.splitlines(): break at line-break characters, with no empty
final piece for a trailing break. -/
def pySplitlines (s : PStr) : List PStr := pySplitlinesAux s []

/-- Python str.strip(): remove leading and trailing whitespace. -/
def pyStrip (s : PStr) : PStr :=
  ((s.dropWhile pyIsSpace).reverse.dropWhile pyIsSpace).reverse

/-- Transcription of src/nasa_iotd.py line 57, the description flattening in
getRssItems: join the stripped lines of the description with single spaces. -/
def flattenDescription (d : PStr) : PStr :=
  joinWith [' '] ((pySplitlines d).map pyStrip)

/-- Transcription of the loop of reflowText (src/nasa_iotd.py lines 132-142).
The word is appended to the current line; if the line then renders wider than
the budget the word is popped again, the previous line content is emitted, and
the word starts a new line.  At the end the final line is always emitted. -/
def reflowLoop (f : PStr → ℚ) (B : ℚ) : List PStr → List PStr → List PStr → List PStr
  | [], line, lines => lines ++ [joinWith [' '] line]
  | w :: ws, line, lines =>
    if B < f (joinWith [' '] (line ++ [w])) then
      reflowLoop f B ws [w] (lines ++ [joinWith [' '] line])
    else
      reflowLoop f B ws (line ++ [w]) lines

/-- Lines produced by reflowText (src/nasa_iotd.py lines 117-146): when the
whole text renders within width - 20 it is returned as the only line,
otherwise the text is split into words and re-flowed greedily.  f models
font.getlength. -/
def reflowLines (text : PStr) (width : ℚ) (f : PStr → ℚ) : List PStr :=
  if f text ≤ width - 20 then [text]
  else reflowLoop f (width - 20) (pySplit text) [] []

/-- Transcription of reflowText (src/nasa_iotd.py lines 117-146): the re-flowed
lines joined with newlines. -/
def reflowText (text : PStr) (width : ℚ) (f : PStr → ℚ) : PStr :=
  joinWith ['\n'] (reflowLines text width f)

/-- Transcription of round_aspect inside PIL.Image.thumbnail (Pillow ≥ 8):
pick whichever of floor and ceiling minimises the key (floor on ties, as
Python's min does), then clamp to at least 1. -/
def roundAspect (q : ℚ) (key : ℤ → ℚ) : ℤ :=
  max (if key ⌊q⌋ ≤ key ⌈q⌉ then ⌊q⌋ else ⌈q⌉) 1

/-- Output-size computation of PIL.Image.thumbnail (Pillow ≥ 8), the resizer
called at src/nasa_iotd.py lines 214 and 234: if the image already fits inside
the target box it is left unchanged; otherwise the more constraining axis is
set to its target value and the other axis is rounded so as to best preserve
the aspect ratio. -/
def thumbnailSize (size target : ℕ × ℕ) : ℕ × ℕ :=
  let width := size.1
  let height := size.2
  let x := target.1
  let y := target.2
  if width ≤ x ∧ height ≤ y then (width, height)
  else
    let aspect : ℚ := (width : ℚ) / (height : ℚ)
    if aspect ≤ (x : ℚ) / (y : ℚ) then
      ((roundAspect ((y : ℚ) * aspect) (fun n => |aspect - (n : ℚ) / (y : ℚ)|)).toNat, y)
    else
      (x, (roundAspect ((x : ℚ) / aspect)
            (fun n => if n = 0 then 0 else |aspect - (x : ℚ) / (n : ℚ)|)).toNat)

/-- Rounding half upward to the nearest integer. -/
def roundNearest (q : ℚ) : ℤ := ⌊q + 1 / 2⌋

/-- Resizer as the specification words it (for comparison with thumbnailSize):
scale both dimensions by the smaller of the two target/source ratios, rounding
to the nearest integer pixel. -/
def specNearestResize (size target : ℕ × ℕ) : ℕ × ℕ :=
  if size.1 ≤ target.1 ∧ size.2 ≤ target.2 then size
  else
    let r := min ((target.1 : ℚ) / (size.1 : ℚ)) ((target.2 : ℚ) / (size.2 : ℚ))
    ((roundNearest (r * (size.1 : ℚ))).toNat, (roundNearest (r * (size.2 : ℚ))).toNat)

/-- Python int() applied to a float: truncation toward zero. -/
def pyTrunc (q : ℚ) : ℤ := if 0 ≤ q then ⌊q⌋ else ⌈q⌉

/-- Transcription of the paste origin computation (src/nasa_iotd.py lines
243-246): int(.5 * W - .5 * w) on each axis. -/
def nasaOrigin (W H w h : ℕ) : ℤ × ℤ :=
  (pyTrunc ((1 / 2 : ℚ) * (W : ℚ) - (1 / 2 : ℚ) * (w : ℚ)),
   pyTrunc ((1 / 2 : ℚ) * (H : ℚ) - (1 / 2 : ℚ) * (h : ℚ)))

/-- Exceptions that the modelled fragments of the script can raise. -/
inductive PyError
  | attributeError
  | typeError
  | indexError
deriving DecidableEq

/-- Model of a feedparser enclosure: its declared media type, target URL and
declared byte length (a string attribute in RSS). -/
structure Enclosure where
  etype : String
  href : String
  length : String
deriving DecidableEq

/-- Model of a feed entry: an optional description and a list of enclosures. -/
structure Entry where
  description : Option PStr
  enclosures : List Enclosure
deriving DecidableEq

/-- Model of the dict built by getRssItems for each accepted entry. -/
structure Item where
  url : String
  size : String
  desc : PStr
deriving DecidableEq

/-- Transcription of the loop body of getRssItems (src/nasa_iotd.py lines
52-71).  The description is flattened before the enclosure checks; when the
description is absent, None.splitlines() raises AttributeError. -/
def getRssItemsAux : List Entry → Except PyError (List Item)
  | [] => .ok []
  | e :: es =>
    match e.description with
    | none => .error .attributeError
    | some d =>
      let desc := flattenDescription d
      match e.enclosures with
      | [] => getRssItemsAux es
      | enc :: _ =>
        if enc.etype ≠ "image/jpeg" then getRssItemsAux es
        else do
          let rest ← getRssItemsAux es
          .ok ({ url := enc.href, size := enc.length, desc := desc } :: rest)

/-- Transcription of getRssItems (src/nasa_iotd.py lines 37-73): the first
count entries are sliced off before filtering. -/
def getRssItems (entries : List Entry) (count : ℕ) : Except PyError (List Item) :=
  getRssItemsAux (entries.take count)

/-- Item produced for a single entry when its description is present: feed
entries without enclosures, or whose first enclosure is not declared
image/jpeg, yield nothing. -/
def entryItem (e : Entry) : Option Item :=
  match e.enclosures with
  | [] => none
  | enc :: _ =>
    if enc.etype = "image/jpeg" then
      some { url := enc.href, size := enc.length,
             desc := flattenDescription (e.description.getD []) }
    else none

/-- Characters after the last slash of a string (the whole string when it has
no slash). -/
def afterLastSlash (s : String) : String :=
  ((s.toList.reverse.takeWhile fun c => c ≠ '/').reverse).asString

/-- Transcription of url.rsplit with separator slash and maxsplit one, indexed
at one (src/nasa_iotd.py line 228): the part after the last slash; on a string
without a slash the single-element list makes the index raise IndexError. -/
def rsplitLast (s : String) : Except PyError String :=
  if '/' ∈ s.toList then .ok (afterLastSlash s) else .error .indexError

/-- Python os.path.basename for POSIX paths. -/
def pyBasename (s : String) : String := afterLastSlash s

/-- Python os.path.join for POSIX paths, two components: the second component
replaces the first when absolute; otherwise the two are joined, inserting a
slash unless the first is empty or already ends with one. -/
def osPathJoin (a b : String) : String :=
  if b.toList.head? = some '/' then b
  else if a = "" then b
  else if a.toList.getLast? = some '/' then a ++ b
  else a ++ "/" ++ b

/-- Values flowing through the resolution variable of main: argparse stores
command-line values as strings unless a converter is configured, while the
Xlib query yields machine integers. -/
inductive PyVal
  | str (s : String)
  | int (n : ℤ)
deriving DecidableEq

/-- Conversion argparse applies to a stored argument value: the configured
converter, or the identity on the raw string when no type is configured. -/
def argparseConvert (ty : Option (String → PyVal)) (raw : String) : PyVal :=
  match ty with
  | none => .str raw
  | some f => f raw

/-- Values stored for the resolution flag (src/nasa_iotd.py line 187): it is
declared with two values and no converter, so both values stay strings. -/
def resolutionArgValues (raw : String × String) : PyVal × PyVal :=
  (argparseConvert none raw.1, argparseConvert none raw.2)

/-- Transcription of getScreenResolution's result (src/nasa_iotd.py lines
93-107): the root screen's pixel dimensions, integers. -/
def getScreenResolutionVals (screen : ℕ × ℕ) : PyVal × PyVal :=
  (.int (screen.1 : ℤ), .int (screen.2 : ℤ))

/-- Transcription of the resolution selection (src/nasa_iotd.py lines
193-196): the tuple of the two raw flag values when the flag is given,
otherwise the display query. -/
def resolveResolution (resFlag : Option (String × String)) (screen : ℕ × ℕ) :
    PyVal × PyVal :=
  match resFlag with
  | none => getScreenResolutionVals screen
  | some raw => resolutionArgValues raw

/-- Tags naming the individual logging calls of the script. -/
inductive LogTag
  | processing
  | origSize
  | thumbSize
  | matteSize
  | reflowDebug
  | couldNotSave
deriving DecidableEq

/-- Observable events of one run: logging calls (with their numeric level),
image operations, and the final save. -/
inductive Ev
  | log (level : ℕ) (tag : LogTag)
  | resize (size : ℕ × ℕ)
  | newImage (size : ℕ × ℕ) (color : ℕ × ℕ × ℕ)
  | paste (origin : ℤ × ℤ)
  | overlay (target : ℕ × ℕ) (reflowWidth : ℚ) (anchorY : ℤ) (text : PStr)
  | save (path : String) (format : String) (quality : ℕ) (ok : Bool)
deriving DecidableEq

/-- Configuration and ambient behaviour of one run.  decode gives the pixel
dimensions Image.open reads from the fetched data; fetchedSize is the byte
length of the downloaded body, which the source never inspects; saveOk tells
whether image.save raises OSError at a given path. -/
structure Env where
  resolution : ℕ × ℕ
  directoryArg : Option String
  outputFileArg : Option String
  pwd : String
  decode : String → ℕ × ℕ
  fetchedSize : String → ℕ
  fontWidth : PStr → ℚ
  saveOk : String → Bool

/-- Transcription of writeImageToDisk (src/nasa_iotd.py lines 110-114): one
save attempt as JPEG at quality 95; an OSError is caught and logged at error
level (40) and not re-raised. -/
def writeImageToDisk (ok : Bool) (path : String) : List Ev :=
  if ok then [.save path "JPEG" 95 true]
  else [.save path "JPEG" 95 false, .log 40 .couldNotSave]

/-- Transcription of renderDescription (src/nasa_iotd.py lines 149-172) as
called from main at line 257 with black_image: the text is re-flowed to the
width of the image it draws on, and anchored at its bottom (height minus
ten). -/
def renderDescriptionEvents (target : ℕ × ℕ) (desc : PStr) (f : PStr → ℚ) : List Ev :=
  [.log 10 .reflowDebug,
   .overlay target (target.1 : ℚ) ((target.2 : ℤ) - 10)
     (reflowText desc (target.1 : ℚ) f)]

/-- Events of one iteration of main's feed loop (src/nasa_iotd.py lines
222-261) once the url basename fn has been computed: decode, thumbnail to the
resolution, allocate the black canvas, paste the image centred, overlay the
description on the canvas, and write to directory slash fn (args.output_file
is not consulted here; the directory defaults to the working directory). -/
def itemEvents (env : Env) (item : Item) (fn : String) : List Ev :=
  let dims1 := thumbnailSize (env.decode item.url) env.resolution
  let W := env.resolution.1
  let H := env.resolution.2
  let origin := nasaOrigin W H dims1.1 dims1.2
  let outPath := osPathJoin (env.directoryArg.getD env.pwd) fn
  [.log 20 .processing, .log 10 .origSize,
   .resize dims1, .log 10 .thumbSize,
   .newImage (W, H) (0, 0, 0), .log 10 .matteSize,
   .paste origin]
  ++ renderDescriptionEvents (W, H) item.desc env.fontWidth
  ++ writeImageToDisk (env.saveOk outPath) outPath

/-- Transcription of one iteration of main's feed loop (src/nasa_iotd.py lines
222-261): the basename extraction at line 228 can raise on a slash-free url;
otherwise the iteration produces its events. -/
def processItem (env : Env) (item : Item) : Except PyError (List Ev) := do
  let fn ← rsplitLast item.url
  .ok (itemEvents env item fn)

/-- Transcription of main's feed path (src/nasa_iotd.py lines 220-261): parse
the feed, process each item in order; normal completion gives process exit
status zero, an uncaught exception is an Except error. -/
def mainRss (env : Env) (entries : List Entry) (count : ℕ) :
    Except PyError (ℕ × List Ev) :=
  match getRssItems entries count with
  | .error e => .error e
  | .ok items =>
    match items.mapM (processItem env) with
    | .error e => .error e
    | .ok evss => .ok (0, evss.flatten)

/-- Transcription of main's input-file path (src/nasa_iotd.py lines 208-218):
resize only, no overlay and no canvas; the output path is args.output_file
when given, else directory slash basename; joining onto a missing directory
raises TypeError. -/
def mainInput (env : Env) (inputFile : String) : Except PyError (ℕ × List Ev) :=
  let dims1 := thumbnailSize (env.decode inputFile) env.resolution
  match env.outputFileArg with
  | some o => .ok (0, [.resize dims1] ++ writeImageToDisk (env.saveOk o) o)
  | none =>
    match env.directoryArg with
    | some d =>
      let o := osPathJoin d (pyBasename inputFile)
      .ok (0, [.resize dims1] ++ writeImageToDisk (env.saveOk o) o)
    | none => .error PyError.typeError

/-- Events of a successful computation, or none. -/
def okEvents : Except PyError (List Ev) → List Ev
  | .ok evs => evs
  | .error _ => []

/-- Events of a completed run. -/
def runEvents : Except PyError (ℕ × List Ev) → List Ev
  | .ok r => r.2
  | .error _ => []

/-- Exit status of a completed run. -/
def exitCode : Except PyError (ℕ × List Ev) → Option ℕ
  | .ok r => some r.1
  | .error _ => none

/-- Destination paths of the save events of a trace, in order. -/
def savePaths (evs : List Ev) : List String :=
  evs.filterMap fun e =>
    match e with
    | .save p _ _ _ => some p
    | _ => none

/-- Format and quality of the save events of a trace, in order. -/
def saveFormats (evs : List Ev) : List (String × ℕ) :=
  evs.filterMap fun e =>
    match e with
    | .save _ fmt q _ => some (fmt, q)
    | _ => none

/-- Number of warning-level (30) logging events in a trace. -/
def warnCount (evs : List Ev) : ℕ :=
  (evs.filter fun e =>
    match e with
    | .log 30 _ => true
    | _ => false).length

/-- Number of failed save events in a trace. -/
def failedSaves (evs : List Ev) : ℕ :=
  (evs.filter fun e =>
    match e with
    | .save _ _ _ false => true
    | _ => false).length

/-- Re-flow widths of the overlay events of a trace, in order. -/
def overlayWidths (evs : List Ev) : List ℚ :=
  evs.filterMap fun e =>
    match e with
    | .overlay _ w _ _ => some w
    | _ => none

/-- Sizes recorded by the resize events of a trace, in order. -/
def resizeSizes (evs : List Ev) : List (ℕ × ℕ) :=
  evs.filterMap fun e =>
    match e with
    | .resize s => some s
    | _ => none

/-- Index of the first paste event of a trace. -/
def pasteIdx (evs : List Ev) : Option ℕ :=
  evs.findIdx? fun e =>
    match e with
    | .paste _ => true
    | _ => false

/-- Index of the first overlay event of a trace. -/
def overlayIdx (evs : List Ev) : Option ℕ :=
  evs.findIdx? fun e =>
    match e with
    | .overlay _ _ _ _ => true
    | _ => false

/-- Sample feed for the C5 witness: a JPEG entry with a two-line description
followed by an entry with no enclosure. -/
def sampleEntries : List Entry :=
  [{ description := some ['a', '\n', 'b'],
     enclosures := [{ etype := "image/jpeg", href := "http://x/f.jpg", length := "99" }] },
   { description := some ['c'], enclosures := [] }]

/-- Feed for the C9 witness: a single entry with no description and no
enclosure (it would be skipped if enclosures were checked first). -/
def sampleBadEntries : List Entry := [{ description := none, enclosures := [] }]

/-- Run configuration whose save always raises OSError. -/
def envFail : Env :=
  { resolution := (30, 30), directoryArg := some "/d", outputFileArg := none,
    pwd := "/p", decode := fun _ => (10, 10), fetchedSize := fun _ => 0,
    fontWidth := fun s => (s.length : ℚ), saveOk := fun _ => false }

/-- Feed item used in concrete runs: declared size 500000 bytes. -/
def sampleItem : Item := { url := "http://x/f.jpg", size := "500000", desc := ['h', 'i'] }

/-- Feed of one JPEG entry with an empty description, for concrete runs. -/
def sampleFeed : List Entry :=
  [{ description := some [],
     enclosures := [{ etype := "image/jpeg", href := "http://x/f.jpg", length := "500000" }] }]

/-- Item getRssItems produces from sampleFeed. -/
def sampleFeedItem : Item := { url := "http://x/f.jpg", size := "500000", desc := [] }

/-- Run configuration where the download yields 499000 bytes while the feed
declared 500000, and the save succeeds. -/
def envWarn : Env :=
  { envFail with saveOk := fun _ => true, fetchedSize := fun _ => 499000 }

/-- Run configuration with an explicit --output-file and a succeeding save. -/
def envOut : Env := { envFail with outputFileArg := some "/o.jpg", saveOk := fun _ => true }

/-- Run configuration with a full-HD canvas and a 4000 by 3000 source. -/
def envWide : Env :=
  { envFail with
    resolution := (1920, 1080)
    decode := fun _ => (4000, 3000)
    saveOk := fun _ => true }

/-- Tokens produced by a Python whitespace split: nonempty, and free of
whitespace characters. -/
def GoodToks (l : List PStr) : Prop :=
  ∀ w ∈ l, w ≠ [] ∧ ∀ c ∈ w, pyIsSpace c = false

/-- Property the word-wrap specification asserts of an emitted line: it
renders within the budget, or it is a single overflowing word. -/
def LineOK (f : PStr → ℚ) (B : ℚ) (l : PStr) : Prop :=
  f l ≤ B ∨ (pySplit l = [l] ∧ B < f l)

theorem pySplitAux_good : ∀ (cs acc : PStr), (∀ c ∈ acc, pyIsSpace c = false) →
    ∀ w ∈ pySplitAux cs acc, w ≠ [] ∧ ∀ c ∈ w, pyIsSpace c = false := by
  intro cs
  induction cs with
  | nil =>
    intro acc hacc w hw
    simp only [pySplitAux] at hw
    split at hw
    · simp at hw
    · rename_i h
      simp only [List.mem_singleton] at hw
      subst hw
      refine ⟨by simpa using h, ?_⟩
      intro c hc
      exact hacc c (by simpa using hc)
  | cons c cs ih =>
    intro acc hacc w hw
    simp only [pySplitAux] at hw
    split at hw
    · split at hw
      · exact ih [] (by simp) w hw
      · rename_i h
        rcases List.mem_cons.mp hw with rfl | hw'
        · refine ⟨by simpa using h, ?_⟩
          intro c' hc'
          exact hacc c' (by simpa using hc')
        · exact ih [] (by simp) w hw'
    · rename_i h
      refine ih (c :: acc) ?_ w hw
      intro c' hc'
      rcases List.mem_cons.mp hc' with rfl | hc''
      · simpa using h
      · exact hacc c' hc''

theorem pySplit_good (s : PStr) : GoodToks (pySplit s) :=
  fun w hw => pySplitAux_good s [] (by simp) w hw

theorem pySplitAux_append : ∀ (w rest acc : PStr),
    (∀ c ∈ w, pyIsSpace c = false) →
    pySplitAux (w ++ rest) acc = pySplitAux rest (w.reverse ++ acc) := by
  intro w
  induction w with
  | nil => intro rest acc _; simp
  | cons c w ih =>
    intro rest acc hw
    have hc : pyIsSpace c = false := hw c (List.mem_cons_self c w)
    simp only [List.cons_append, pySplitAux, hc, Bool.false_eq_true, if_false, List.append_eq]
    rw [ih rest (c :: acc) (fun c' hc' => hw c' (List.mem_cons_of_mem _ hc'))]
    simp

theorem pySplit_joinWith : ∀ ws : List PStr, GoodToks ws →
    pySplit (joinWith [' '] ws) = ws := by
  intro ws
  induction ws with
  | nil => intro _; rfl
  | cons w ws ih =>
    intro h
    obtain ⟨hne, hgood⟩ := h w (List.mem_cons_self w ws)
    rcases ws with _ | ⟨v, vs⟩
    · show pySplit (joinWith [' '] [w]) = [w]
      have : joinWith [' '] [w] = w := rfl
      rw [this]
      unfold pySplit
      rw [show w = w ++ ([] : PStr) by simp, pySplitAux_append w [] [] hgood]
      simp [pySplitAux, hne]
    · have hj : joinWith [' '] (w :: v :: vs) = w ++ (' ' :: joinWith [' '] (v :: vs)) := by
        show w ++ [' '] ++ joinWith [' '] (v :: vs) = _
        simp
      unfold pySplit
      rw [hj, pySplitAux_append w _ [] hgood]
      have hrev : (w.reverse ++ ([] : PStr)) ≠ [] := by simpa using hne
      simp only [pySplitAux, pyIsSpace]
      rw [if_pos (by simp), if_neg hrev]
      have := ih (fun u hu => h u (List.mem_cons_of_mem _ hu))
      unfold pySplit at this
      rw [this]
      simp

theorem reflowLoop_words (f : PStr → ℚ) (B : ℚ) :
    ∀ (ws line lines : List PStr), GoodToks ws → GoodToks line →
    ((reflowLoop f B ws line lines).map pySplit).flatten
      = ((lines.map pySplit).flatten ++ line) ++ ws := by
  intro ws
  induction ws with
  | nil =>
    intro line lines _ hline
    simp [reflowLoop, pySplit_joinWith line hline]
  | cons w ws ih =>
    intro line lines hws hline
    have hwgood : w ≠ [] ∧ ∀ c ∈ w, pyIsSpace c = false := hws w (List.mem_cons_self w ws)
    have hwstail : GoodToks ws := fun u hu => hws u (List.mem_cons_of_mem _ hu)
    simp only [reflowLoop]
    split
    · rw [ih [w] (lines ++ [joinWith [' '] line]) hwstail ?_]
      · simp [pySplit_joinWith line hline, List.append_assoc]
      · intro u hu
        simp only [List.mem_singleton] at hu
        subst hu
        exact hwgood
    · rw [ih (line ++ [w]) lines hwstail ?_]
      · simp [List.append_assoc]
      · intro u hu
        rcases List.mem_append.mp hu with h1 | h2
        · exact hline u h1
        · simp only [List.mem_singleton] at h2
          subst h2
          exact hwgood

theorem joinWith_single (sep w : PStr) : joinWith sep [w] = w := rfl

theorem emit_lineOK (f : PStr → ℚ) (B : ℚ) (line : List PStr) (hline : GoodToks line)
    (hp : f (joinWith [' '] line) ≤ B ∨ ∃ w, line = [w]) :
    LineOK f B (joinWith [' '] line) := by
  rcases hp with h | ⟨w, rfl⟩
  · exact Or.inl h
  · by_cases hfw : f (joinWith [' '] [w]) ≤ B
    · exact Or.inl hfw
    · refine Or.inr ⟨?_, lt_of_not_le hfw⟩
      rw [joinWith_single]
      have := pySplit_joinWith [w] hline
      rwa [joinWith_single] at this

theorem reflowLoop_lineOK (f : PStr → ℚ) (B : ℚ) :
    ∀ (ws line lines : List PStr), GoodToks ws → GoodToks line →
    (f (joinWith [' '] line) ≤ B ∨ ∃ w, line = [w]) →
    (∀ l ∈ lines, LineOK f B l) →
    ∀ l ∈ reflowLoop f B ws line lines, LineOK f B l := by
  intro ws
  induction ws with
  | nil =>
    intro line lines _ hline hp hlines l hl
    simp only [reflowLoop] at hl
    rcases List.mem_append.mp hl with h1 | h2
    · exact hlines l h1
    · simp only [List.mem_singleton] at h2
      subst h2
      exact emit_lineOK f B line hline hp
  | cons w ws ih =>
    intro line lines hws hline hp hlines l hl
    have hwgood := hws w (List.mem_cons_self w ws)
    have hwstail : GoodToks ws := fun u hu => hws u (List.mem_cons_of_mem _ hu)
    simp only [reflowLoop] at hl
    split at hl
    · refine ih [w] _ hwstail ?_ (Or.inr ⟨w, rfl⟩) ?_ l hl
      · intro u hu
        simp only [List.mem_singleton] at hu
        subst hu
        exact hwgood
      · intro u hu
        rcases List.mem_append.mp hu with h1 | h2
        · exact hlines u h1
        · simp only [List.mem_singleton] at h2
          subst h2
          exact emit_lineOK f B line hline hp
    · rename_i hcond
      refine ih (line ++ [w]) lines hwstail ?_ (Or.inl (le_of_not_lt hcond)) hlines l hl
      intro u hu
      rcases List.mem_append.mp hu with h1 | h2
      · exact hline u h1
      · simp only [List.mem_singleton] at h2
        subst h2
        exact hwgood

/-- C2 (amended): for every description, width and font-width function whose
empty rendering fits the budget width - 20, every line emitted by reflowText
renders within the budget or is a single word that alone overflows it, and the
concatenated words of the emitted lines are exactly the words of the input. -/
theorem reflowText_wrap (text : PStr) (width : ℚ) (f : PStr → ℚ)
    (hEmpty : f [] ≤ width - 20) :
    (∀ l ∈ reflowLines text width f, LineOK f (width - 20) l) ∧
    ((reflowLines text width f).map pySplit).flatten = pySplit text ∧
    reflowText text width f = joinWith ['\n'] (reflowLines text width f) := by
  refine ⟨?_, ?_, rfl⟩
  · intro l hl
    unfold reflowLines at hl
    split at hl
    · rename_i hfits
      simp only [List.mem_singleton] at hl
      subst hl
      exact Or.inl hfits
    · exact reflowLoop_lineOK f (width - 20) (pySplit text) [] [] (pySplit_good text)
        (fun u hu => absurd hu (List.not_mem_nil u)) (Or.inl hEmpty)
        (fun u hu => absurd hu (List.not_mem_nil u)) l hl
  · unfold reflowLines
    split
    · simp
    · rw [reflowLoop_words f (width - 20) (pySplit text) [] [] (pySplit_good text)
        (fun u hu => absurd hu (List.not_mem_nil u))]
      simp

/-- Witness for C2 at a concrete input: text "hi yo", width 25, each character
one pixel wide. -/
theorem reflowText_wrap_witness :
    (∀ l ∈ reflowLines ['h', 'i', ' ', 'y', 'o'] 25 (fun s => (s.length : ℚ)),
      LineOK (fun s => (s.length : ℚ)) (25 - 20) l) ∧
    ((reflowLines ['h', 'i', ' ', 'y', 'o'] 25
        (fun s => (s.length : ℚ))).map pySplit).flatten
      = pySplit ['h', 'i', ' ', 'y', 'o'] ∧
    reflowText ['h', 'i', ' ', 'y', 'o'] 25 (fun s => (s.length : ℚ))
      = joinWith ['\n'] (reflowLines ['h', 'i', ' ', 'y', 'o'] 25
          (fun s => (s.length : ℚ))) :=
  reflowText_wrap ['h', 'i', ' ', 'y', 'o'] 25 (fun s => (s.length : ℚ)) (by norm_num)

/-- Counterexample for C2 as stated: with image width 19 the budget is -1, and
for the one-word text "a" (each character one pixel wide) the wrapper emits an
initial empty line; the empty line renders at width 0, which exceeds the
budget, and it is not a single overflowing word. -/
theorem reflowText_wrap_cex :
    reflowLines ['a'] 19 (fun s => (s.length : ℚ)) = [[], ['a']] ∧
    ¬ LineOK (fun s => (s.length : ℚ)) (19 - 20) [] := by
  constructor
  · norm_num [reflowLines, reflowLoop, pySplit, pySplitAux, pyIsSpace, joinWith]
  · intro h
    rcases h with h | ⟨h, _⟩
    · norm_num at h
    · simp [pySplit, pySplitAux] at h

theorem roundAspect_one_le (q : ℚ) (key : ℤ → ℚ) : 1 ≤ roundAspect q key :=
  le_max_right _ _

theorem roundAspect_le (q : ℚ) (key : ℤ → ℚ) (c : ℤ) (hq : q ≤ (c : ℚ)) (hc : 1 ≤ c) :
    roundAspect q key ≤ c := by
  unfold roundAspect
  refine max_le ?_ hc
  split
  · exact le_trans (Int.floor_le_ceil q) (Int.ceil_le.mpr hq)
  · exact Int.ceil_le.mpr hq

theorem roundAspect_close (q : ℚ) (key : ℤ → ℚ) (hq : 0 < q) :
    |(roundAspect q key : ℚ) - q| < 1 := by
  have hfl : (⌊q⌋ : ℚ) ≤ q := Int.floor_le q
  have hfl2 : q - 1 < (⌊q⌋ : ℚ) := Int.sub_one_lt_floor q
  have hcl : q ≤ (⌈q⌉ : ℚ) := Int.le_ceil q
  have hcl2 : (⌈q⌉ : ℚ) < q + 1 := Int.ceil_lt_add_one q
  unfold roundAspect
  split
  · rcases le_or_lt 1 ⌊q⌋ with h1 | h1
    · rw [max_eq_left h1, abs_lt]
      constructor <;> linarith
    · rw [max_eq_right (by omega : ⌊q⌋ ≤ 1)]
      have hlt : q < (⌊q⌋ : ℚ) + 1 := Int.lt_floor_add_one q
      have h0 : (⌊q⌋ : ℚ) ≤ 0 := by exact_mod_cast (by omega : ⌊q⌋ ≤ 0)
      rw [abs_lt]
      push_cast
      constructor <;> linarith
  · have h1 : 1 ≤ ⌈q⌉ := by
      have := Int.ceil_pos.mpr hq
      omega
    rw [max_eq_left h1, abs_lt]
    constructor <;> linarith

theorem thumbnailSize_def (width height x y : ℕ) :
    thumbnailSize (width, height) (x, y) =
      if width ≤ x ∧ height ≤ y then (width, height)
      else if ((width : ℚ) / (height : ℚ)) ≤ (x : ℚ) / (y : ℚ) then
        ((roundAspect ((y : ℚ) * ((width : ℚ) / (height : ℚ)))
          (fun n => |((width : ℚ) / (height : ℚ)) - (n : ℚ) / (y : ℚ)|)).toNat, y)
      else
        (x, (roundAspect ((x : ℚ) / ((width : ℚ) / (height : ℚ)))
          (fun n => if n = 0 then 0
                    else |((width : ℚ) / (height : ℚ)) - (x : ℚ) / (n : ℚ)|)).toNat) := rfl

/-- C1 (amended): the resizer leaves an image unchanged when it already fits
inside the target box; otherwise the more constraining axis is set exactly to
its target value and the other axis is an integer within one pixel of the
exactly scaled value (chosen to best preserve the aspect ratio, at least one),
so neither output dimension exceeds the target. -/
theorem thumbnailSize_correct (width height x y : ℕ)
    (hw : 0 < width) (hh : 0 < height) (hx : 0 < x) (hy : 0 < y) :
    (width ≤ x ∧ height ≤ y → thumbnailSize (width, height) (x, y) = (width, height)) ∧
    (¬(width ≤ x ∧ height ≤ y) →
      (thumbnailSize (width, height) (x, y)).1 ≤ x ∧
      (thumbnailSize (width, height) (x, y)).2 ≤ y ∧
      1 ≤ (thumbnailSize (width, height) (x, y)).1 ∧
      1 ≤ (thumbnailSize (width, height) (x, y)).2 ∧
      (((thumbnailSize (width, height) (x, y)).2 = y ∧
         |((thumbnailSize (width, height) (x, y)).1 : ℚ) - (y : ℚ) * (width : ℚ) / (height : ℚ)| < 1) ∨
       ((thumbnailSize (width, height) (x, y)).1 = x ∧
         |((thumbnailSize (width, height) (x, y)).2 : ℚ) - (x : ℚ) * (height : ℚ) / (width : ℚ)| < 1))) := by
  have hwQ : (0 : ℚ) < (width : ℚ) := by exact_mod_cast hw
  have hhQ : (0 : ℚ) < (height : ℚ) := by exact_mod_cast hh
  have hxQ : (0 : ℚ) < (x : ℚ) := by exact_mod_cast hx
  have hyQ : (0 : ℚ) < (y : ℚ) := by exact_mod_cast hy
  have haspect : (0 : ℚ) < (width : ℚ) / (height : ℚ) := div_pos hwQ hhQ
  constructor
  · intro hfits
    rw [thumbnailSize_def, if_pos hfits]
  · intro hnfits
    rw [thumbnailSize_def, if_neg hnfits]
    by_cases hcond : ((width : ℚ) / (height : ℚ)) ≤ (x : ℚ) / (y : ℚ)
    · rw [if_pos hcond]
      set q := (y : ℚ) * ((width : ℚ) / (height : ℚ)) with hqdef
      set k := fun n : ℤ => |((width : ℚ) / (height : ℚ)) - (n : ℚ) / (y : ℚ)| with hkdef
      have hqpos : 0 < q := mul_pos hyQ haspect
      have hqle : q ≤ (x : ℚ) := by
        calc q ≤ (y : ℚ) * ((x : ℚ) / (y : ℚ)) :=
                mul_le_mul_of_nonneg_left hcond (le_of_lt hyQ)
          _ = (x : ℚ) := by
                rw [mul_comm, div_mul_cancel₀ _ (ne_of_gt hyQ)]
      have hra1 : 1 ≤ roundAspect q k := roundAspect_one_le q k
      have hrale : roundAspect q k ≤ (x : ℤ) :=
        roundAspect_le q k (x : ℤ) (by exact_mod_cast hqle) (by exact_mod_cast hx)
      have htn : ((roundAspect q k).toNat : ℤ) = roundAspect q k :=
        Int.toNat_of_nonneg (by omega)
      refine ⟨by omega, le_refl y, by omega, hy, Or.inl ⟨rfl, ?_⟩⟩
      have hclose := roundAspect_close q k hqpos
      have hcast : ((roundAspect q k).toNat : ℚ) = ((roundAspect q k : ℤ) : ℚ) := by
        exact_mod_cast congrArg (fun z : ℤ => (z : ℚ)) htn
      rw [hcast]
      rw [hqdef] at hclose
      rw [mul_div_assoc]
      exact hclose
    · rw [if_neg hcond]
      have hlt : (x : ℚ) / (y : ℚ) < (width : ℚ) / (height : ℚ) := lt_of_not_le hcond
      set q := (x : ℚ) / ((width : ℚ) / (height : ℚ)) with hqdef
      set k := fun n : ℤ => if n = 0 then (0 : ℚ)
                            else |((width : ℚ) / (height : ℚ)) - (x : ℚ) / (n : ℚ)| with hkdef
      have hqpos : 0 < q := div_pos hxQ haspect
      have hqle : q ≤ (y : ℚ) := by
        have hxlt : (x : ℚ) < ((width : ℚ) / (height : ℚ)) * (y : ℚ) :=
          (div_lt_iff₀ hyQ).mp hlt
        have : q < (y : ℚ) := by
          rw [hqdef, div_lt_iff₀ haspect]
          linarith [hxlt]
        exact le_of_lt this
      have hra1 : 1 ≤ roundAspect q k := roundAspect_one_le q k
      have hrale : roundAspect q k ≤ (y : ℤ) :=
        roundAspect_le q k (y : ℤ) (by exact_mod_cast hqle) (by exact_mod_cast hy)
      have htn : ((roundAspect q k).toNat : ℤ) = roundAspect q k :=
        Int.toNat_of_nonneg (by omega)
      refine ⟨le_refl x, by omega, hx, by omega, Or.inr ⟨rfl, ?_⟩⟩
      have hclose := roundAspect_close q k hqpos
      have hcast : ((roundAspect q k).toNat : ℚ) = ((roundAspect q k : ℤ) : ℚ) := by
        exact_mod_cast congrArg (fun z : ℤ => (z : ℚ)) htn
      rw [hcast]
      have hq2 : q = (x : ℚ) * (height : ℚ) / (width : ℚ) := by
        rw [hqdef, div_div_eq_mul_div]
      rw [← hq2]
      exact hclose

/-- Witness for C1 at a concrete input: a 4000 by 3000 image resized into a
1920 by 1080 box. -/
theorem thumbnailSize_correct_witness :
    (4000 ≤ 1920 ∧ 3000 ≤ 1080 → thumbnailSize (4000, 3000) (1920, 1080) = (4000, 3000)) ∧
    (¬(4000 ≤ 1920 ∧ 3000 ≤ 1080) →
      (thumbnailSize (4000, 3000) (1920, 1080)).1 ≤ 1920 ∧
      (thumbnailSize (4000, 3000) (1920, 1080)).2 ≤ 1080 ∧
      1 ≤ (thumbnailSize (4000, 3000) (1920, 1080)).1 ∧
      1 ≤ (thumbnailSize (4000, 3000) (1920, 1080)).2 ∧
      (((thumbnailSize (4000, 3000) (1920, 1080)).2 = 1080 ∧
         |((thumbnailSize (4000, 3000) (1920, 1080)).1 : ℚ)
           - (1080 : ℚ) * (4000 : ℚ) / (3000 : ℚ)| < 1) ∨
       ((thumbnailSize (4000, 3000) (1920, 1080)).1 = 1920 ∧
         |((thumbnailSize (4000, 3000) (1920, 1080)).2 : ℚ)
           - (1920 : ℚ) * (3000 : ℚ) / (4000 : ℚ)| < 1))) :=
  thumbnailSize_correct 4000 3000 1920 1080 (by norm_num) (by norm_num)
    (by norm_num) (by norm_num)

/-- Counterexample for C1 as stated: a 10 by 2 image resized into a 7 by 2 box.
The code keeps height 2 (the aspect-preserving choice), while scaling both
dimensions by the smaller ratio 7/10 and rounding to the nearest integer would
give height 1. -/
theorem thumbnailSize_cex :
    thumbnailSize (10, 2) (7, 2) = (7, 2) ∧
    specNearestResize (10, 2) (7, 2) = (7, 1) ∧
    ((7, 2) : ℕ × ℕ) ≠ ((7, 1) : ℕ × ℕ) := by
  refine ⟨?_, ?_, by decide⟩
  · rw [thumbnailSize_def]
    rw [if_neg (by norm_num)]
    push_cast
    rw [if_neg (by norm_num)]
    have hfl : ⌊(7 : ℚ) / (10 / 2)⌋ = 1 := by norm_num
    have hcl : ⌈(7 : ℚ) / (10 / 2)⌉ = 2 := by
      rw [Int.ceil_eq_iff]
      norm_num
    unfold roundAspect
    rw [hfl, hcl]
    norm_num [max_def]
    rw [show |(3 : ℚ) / 2| = 3 / 2 from abs_of_pos (by norm_num)]
    norm_num
    decide
  · unfold specNearestResize roundNearest
    rw [if_neg (by norm_num)]
    simp only
    push_cast
    rw [min_eq_left (by norm_num : (7 : ℚ) / 10 ≤ 2 / 2)]
    have h1 : ⌊(7 : ℚ) / 10 * 10 + 1 / 2⌋ = 7 := by norm_num
    have h2 : ⌊(7 : ℚ) / 10 * 2 + 1 / 2⌋ = 1 := by norm_num
    rw [h1, h2]
    decide

theorem pySplitlinesAux_noBreak : ∀ (n : ℕ) (cs acc : PStr), cs.length ≤ n →
    (∀ c ∈ acc, isLineBreak c = false) →
    ∀ l ∈ pySplitlinesAux cs acc, ∀ c ∈ l, isLineBreak c = false := by
  intro n
  induction n with
  | zero =>
    intro cs acc hlen hacc l hl c hc
    have hcs : cs = [] := List.length_eq_zero.mp (Nat.le_zero.mp hlen)
    subst hcs
    simp only [pySplitlinesAux] at hl
    split at hl
    · exact absurd hl (List.not_mem_nil l)
    · simp only [List.mem_singleton] at hl
      subst hl
      exact hacc c (by simpa using hc)
  | succ n ih =>
    intro cs acc hlen hacc l hl c hc
    rcases cs with _ | ⟨c', cs⟩
    · simp only [pySplitlinesAux] at hl
      split at hl
      · exact absurd hl (List.not_mem_nil l)
      · simp only [List.mem_singleton] at hl
        subst hl
        exact hacc c (by simpa using hc)
    · have hlen' : cs.length ≤ n := by
        simpa using hlen
      simp only [pySplitlinesAux] at hl
      split at hl
      · rcases List.mem_cons.mp hl with rfl | hl'
        · exact hacc c (by simpa using hc)
        · refine ih _ [] ?_ (fun u hu => absurd hu (List.not_mem_nil u)) l hl' c hc
          split
          · have := List.length_tail cs
            omega
          · exact hlen'
      · rename_i hbrk
        refine ih cs (c' :: acc) hlen' ?_ l hl c hc
        intro u hu
        rcases List.mem_cons.mp hu with rfl | hu'
        · simpa using hbrk
        · exact hacc u hu'

theorem mem_joinWith : ∀ (sep : PStr) (ws : List PStr) (c : Char),
    c ∈ joinWith sep ws → c ∈ sep ∨ ∃ w ∈ ws, c ∈ w := by
  intro sep ws
  induction ws with
  | nil =>
    intro c hc
    exact absurd hc (List.not_mem_nil c)
  | cons w ws ih =>
    intro c hc
    rcases ws with _ | ⟨v, vs⟩
    · exact Or.inr ⟨w, List.mem_singleton_self w, hc⟩
    · have hj : joinWith sep (w :: v :: vs) = w ++ sep ++ joinWith sep (v :: vs) := rfl
      rw [hj] at hc
      rcases List.mem_append.mp hc with h1 | h2
      · rcases List.mem_append.mp h1 with ha | hb
        · exact Or.inr ⟨w, List.mem_cons_self _ _, ha⟩
        · exact Or.inl hb
      · rcases ih c h2 with h | ⟨u, hu, hcu⟩
        · exact Or.inl h
        · exact Or.inr ⟨u, List.mem_cons_of_mem _ hu, hcu⟩

theorem mem_pyStrip (s : PStr) (c : Char) (hc : c ∈ pyStrip s) : c ∈ s := by
  unfold pyStrip at hc
  rw [List.mem_reverse] at hc
  have h1 : c ∈ (s.dropWhile pyIsSpace).reverse := (List.dropWhile_sublist _).mem hc
  rw [List.mem_reverse] at h1
  exact (List.dropWhile_sublist _).mem h1

theorem flattenDescription_noBreak (d : PStr) (c : Char) (hc : c ∈ flattenDescription d) :
    isLineBreak c = false := by
  unfold flattenDescription at hc
  rcases mem_joinWith [' '] _ c hc with h | ⟨w, hw, hcw⟩
  · simp only [List.mem_singleton] at h
    subst h
    decide
  · rcases List.mem_map.mp hw with ⟨l, hl, rfl⟩
    exact pySplitlinesAux_noBreak d.length d [] (le_refl _)
      (fun u hu => absurd hu (List.not_mem_nil u)) l hl c (mem_pyStrip l c hcw)

theorem entryItem_desc (e : Entry) (it : Item) (h : entryItem e = some it) :
    it.desc = flattenDescription (e.description.getD []) := by
  unfold entryItem at h
  rcases henc : e.enclosures with _ | ⟨enc, rest⟩
  · rw [henc] at h
    dsimp only at h
    cases h
  · rw [henc] at h
    dsimp only at h
    by_cases ht : enc.etype = "image/jpeg"
    · rw [if_pos ht] at h
      cases h
      rfl
    · rw [if_neg ht] at h
      cases h

theorem getRssItemsAux_ok : ∀ entries : List Entry,
    (∀ e ∈ entries, e.description ≠ none) →
    getRssItemsAux entries = .ok (entries.filterMap entryItem) := by
  intro entries
  induction entries with
  | nil => intro _; rfl
  | cons e es ih =>
    intro h
    have hd := h e (List.mem_cons_self e es)
    have htl : ∀ u ∈ es, u.description ≠ none :=
      fun u hu => h u (List.mem_cons_of_mem _ hu)
    rcases hdesc : e.description with _ | d
    · exact absurd hdesc hd
    · simp only [getRssItemsAux, hdesc]
      rcases henc : e.enclosures with _ | ⟨enc, rest⟩
      · dsimp only
        rw [ih htl]
        simp [entryItem, henc]
      · dsimp only
        by_cases ht : enc.etype = "image/jpeg"
        · rw [if_neg (by simpa using ht)]
          rw [ih htl]
          simp only [Bind.bind, Except.bind]
          simp [entryItem, henc, ht, hdesc]
        · rw [if_pos (by simpa using ht)]
          rw [ih htl]
          simp [entryItem, henc, ht]

/-- C5: when every entry among the first count carries a description,
getRssItems returns up to count items, exactly the entries of the count-slice
whose first enclosure is declared image/jpeg, in feed order, and every
returned description is a single line with no newline or carriage return
left. -/
theorem getRssItems_correct (entries : List Entry) (count : ℕ)
    (h : ∀ e ∈ entries.take count, e.description ≠ none) :
    getRssItems entries count = .ok ((entries.take count).filterMap entryItem) ∧
    ((entries.take count).filterMap entryItem).length ≤ count ∧
    ∀ it ∈ (entries.take count).filterMap entryItem, '\n' ∉ it.desc ∧ '\r' ∉ it.desc := by
  refine ⟨getRssItemsAux_ok _ h, ?_, ?_⟩
  · have h1 : ((entries.take count).filterMap entryItem).length ≤ (entries.take count).length :=
      List.length_filterMap_le _ _
    have h2 : (entries.take count).length ≤ count := by
      simp [List.length_take]
    omega
  · intro it hit
    rcases List.mem_filterMap.mp hit with ⟨e, _, hee⟩
    have hdesc := entryItem_desc e it hee
    constructor
    · intro hmem
      have hb := flattenDescription_noBreak (e.description.getD []) '\n' (hdesc ▸ hmem)
      simp [isLineBreak] at hb
    · intro hmem
      have hb := flattenDescription_noBreak (e.description.getD []) '\r' (hdesc ▸ hmem)
      simp [isLineBreak] at hb

/-- Witness for C5 on sampleEntries with count two. -/
theorem getRssItems_correct_witness :
    getRssItems sampleEntries 2 = .ok ((sampleEntries.take 2).filterMap entryItem) ∧
    ((sampleEntries.take 2).filterMap entryItem).length ≤ 2 ∧
    ∀ it ∈ (sampleEntries.take 2).filterMap entryItem, '\n' ∉ it.desc ∧ '\r' ∉ it.desc :=
  getRssItems_correct sampleEntries 2 (by decide)

theorem getRssItemsAux_error : ∀ entries : List Entry,
    (∃ e ∈ entries, e.description = none) →
    getRssItemsAux entries = .error .attributeError := by
  intro entries
  induction entries with
  | nil =>
    intro h
    rcases h with ⟨e, he, _⟩
    exact absurd he (List.not_mem_nil e)
  | cons e es ih =>
    intro h
    rcases h with ⟨u, hu, hnone⟩
    rcases hdesc : e.description with _ | d
    · simp [getRssItemsAux, hdesc]
    · have hes : ∃ v ∈ es, v.description = none := by
        rcases List.mem_cons.mp hu with rfl | hu'
        · rw [hdesc] at hnone
          cases hnone
        · exact ⟨u, hu', hnone⟩
      simp only [getRssItemsAux, hdesc]
      rcases henc : e.enclosures with _ | ⟨enc, rest⟩
      · dsimp only
        exact ih hes
      · dsimp only
        by_cases ht : enc.etype = "image/jpeg"
        · rw [if_neg (by simpa using ht)]
          rw [ih hes]
          rfl
        · rw [if_pos (by simpa using ht)]
          exact ih hes

/-- C9: the description is flattened before the enclosure checks, so a missing
description among the first count entries always raises, even when the entry
would otherwise be skipped. -/
theorem getRssItems_missing_description (entries : List Entry) (count : ℕ)
    (h : ∃ e ∈ entries.take count, e.description = none) :
    getRssItems entries count = .error .attributeError :=
  getRssItemsAux_error _ h

/-- Witness for C9 on sampleBadEntries with count one. -/
theorem getRssItems_missing_description_witness :
    getRssItems sampleBadEntries 1 = .error .attributeError :=
  getRssItems_missing_description sampleBadEntries 1
    ⟨{ description := none, enclosures := [] }, by decide, rfl⟩

theorem processItem_eval (env : Env) (item : Item) (fn : String)
    (hr : rsplitLast item.url = .ok fn) :
    processItem env item = .ok (itemEvents env item fn) := by
  unfold processItem
  rw [hr]
  rfl

theorem processItem_ok (env : Env) (item : Item) (evs : List Ev)
    (h : processItem env item = .ok evs) :
    ∃ fn, rsplitLast item.url = .ok fn ∧ evs = itemEvents env item fn := by
  rcases hr : rsplitLast item.url with e | fn
  · unfold processItem at h
    rw [hr] at h
    exact Except.noConfusion h
  · refine ⟨fn, rfl, ?_⟩
    rw [processItem_eval env item fn hr] at h
    cases h
    rfl

theorem pyTrunc_half_diff (A a : ℕ) (h : a ≤ A) :
    pyTrunc ((1 / 2 : ℚ) * (A : ℚ) - (1 / 2 : ℚ) * (a : ℚ)) = (((A - a) / 2 : ℕ) : ℤ) := by
  have haA : (a : ℚ) ≤ (A : ℚ) := by exact_mod_cast h
  have hnn : (0 : ℚ) ≤ (1 / 2 : ℚ) * (A : ℚ) - (1 / 2 : ℚ) * (a : ℚ) := by linarith
  have heq : (1 / 2 : ℚ) * (A : ℚ) - (1 / 2 : ℚ) * (a : ℚ)
      = ((A - a : ℕ) : ℚ) / ((2 : ℕ) : ℚ) := by
    rw [Nat.cast_sub h]
    push_cast
    ring
  unfold pyTrunc
  rw [if_pos hnn, heq]
  rw [← Int.natCast_floor_eq_floor (by positivity)]
  rw [Nat.floor_div_eq_div]

theorem savePaths_itemEvents (env : Env) (item : Item) (fn : String) :
    savePaths (itemEvents env item fn)
      = [osPathJoin (env.directoryArg.getD env.pwd) fn] := by
  simp only [itemEvents, renderDescriptionEvents, writeImageToDisk, savePaths]
  split <;> simp

theorem saveFormats_itemEvents (env : Env) (item : Item) (fn : String) :
    saveFormats (itemEvents env item fn) = [("JPEG", 95)] := by
  simp only [itemEvents, renderDescriptionEvents, writeImageToDisk, saveFormats]
  split <;> simp

theorem log_levels_itemEvents (env : Env) (item : Item) (fn : String)
    (lvl : ℕ) (tag : LogTag) (h : Ev.log lvl tag ∈ itemEvents env item fn) :
    lvl = 10 ∨ lvl = 20 ∨ lvl = 40 := by
  simp only [itemEvents, renderDescriptionEvents, writeImageToDisk] at h
  split at h <;> simp at h <;> tauto

theorem itemEvents_size_ignored (env : Env) (item : Item) (fn : String) (s : String) :
    itemEvents env { item with size := s } fn = itemEvents env item fn := rfl

theorem processItem_size_ignored (env : Env) (item : Item) (s : String) :
    processItem env { item with size := s } = processItem env item := rfl

theorem save_false_logged_itemEvents (env : Env) (item : Item) (fn : String)
    (p : String) (h : Ev.save p "JPEG" 95 false ∈ itemEvents env item fn) :
    Ev.log 40 .couldNotSave ∈ itemEvents env item fn := by
  simp only [itemEvents, renderDescriptionEvents, writeImageToDisk] at h ⊢
  split at h <;> rename_i hs
  · simp at h
  · simp [hs]

theorem newImage_mem_itemEvents (env : Env) (item : Item) (fn : String) :
    Ev.newImage (env.resolution.1, env.resolution.2) (0, 0, 0) ∈ itemEvents env item fn := by
  simp [itemEvents]

theorem paste_mem_itemEvents (env : Env) (item : Item) (fn : String) :
    Ev.paste (nasaOrigin env.resolution.1 env.resolution.2
        (thumbnailSize (env.decode item.url) env.resolution).1
        (thumbnailSize (env.decode item.url) env.resolution).2)
      ∈ itemEvents env item fn := by
  simp [itemEvents]

theorem mainRss_exit_zero (env : Env) (entries : List Entry) (count : ℕ)
    (r : ℕ × List Ev) (h : mainRss env entries count = .ok r) : r.1 = 0 := by
  unfold mainRss at h
  rcases hi : getRssItems entries count with e | items <;> rw [hi] at h <;> dsimp only at h
  · exact Except.noConfusion h
  · rcases hm : items.mapM (processItem env) with e | evss <;> rw [hm] at h <;> dsimp only at h
    · exact Except.noConfusion h
    · cases h
      rfl

theorem mainRss_single (env : Env) (entries : List Entry) (item : Item) (fn : String)
    (hitems : getRssItems entries 1 = .ok [item])
    (hfn : rsplitLast item.url = .ok fn) :
    mainRss env entries 1 = .ok (0, itemEvents env item fn) := by
  unfold mainRss
  rw [hitems]
  dsimp only
  have hmap : [item].mapM (processItem env) = .ok [itemEvents env item fn] := by
    rw [List.mapM_cons, processItem_eval env item fn hfn, List.mapM_nil]
    rfl
  rw [hmap]
  dsimp only
  simp

/-- C7: given a resized image no larger than the canvas, the paste origin is
the centring offset, half the dimension difference rounded down on each axis,
zero when the sizes coincide; and the feed path always allocates the canvas at
the target resolution filled with black. -/
theorem composite_centered (W H w h : ℕ) (hw : w ≤ W) (hh : h ≤ H) :
    nasaOrigin W H w h = ((((W - w) / 2 : ℕ) : ℤ), (((H - h) / 2 : ℕ) : ℤ)) ∧
    (w = W ∧ h = H → nasaOrigin W H w h = (0, 0)) ∧
    ∀ (env : Env) (item : Item) (evs : List Ev), processItem env item = .ok evs →
      Ev.newImage (env.resolution.1, env.resolution.2) (0, 0, 0) ∈ evs := by
  have h1 := pyTrunc_half_diff W w hw
  have h2 := pyTrunc_half_diff H h hh
  refine ⟨?_, ?_, ?_⟩
  · unfold nasaOrigin
    rw [h1, h2]
  · rintro ⟨rfl, rfl⟩
    unfold nasaOrigin
    rw [h1, h2]
    simp
  · intro env item evs hp
    rcases processItem_ok env item evs hp with ⟨fn, _, rfl⟩
    exact newImage_mem_itemEvents env item fn

/-- Witness for C7: a 1440 by 1080 image on a 1920 by 1080 canvas. -/
theorem composite_centered_witness :
    nasaOrigin 1920 1080 1440 1080
      = ((((1920 - 1440) / 2 : ℕ) : ℤ), (((1080 - 1080) / 2 : ℕ) : ℤ)) ∧
    (1440 = 1920 ∧ 1080 = 1080 → nasaOrigin 1920 1080 1440 1080 = (0, 0)) ∧
    ∀ (env : Env) (item : Item) (evs : List Ev), processItem env item = .ok evs →
      Ev.newImage (env.resolution.1, env.resolution.2) (0, 0, 0) ∈ evs :=
  composite_centered 1920 1080 1440 1080 (by norm_num) (by norm_num)

/-- C10: with the resolution flag supplied, both stored values stay raw
strings, because the flag is declared without a converter; the display-query
path instead yields a pair of integers, and a string value is never an
integer value. -/
theorem resolution_flag_strings (wRaw hRaw : String) (screen : ℕ × ℕ) :
    resolveResolution (some (wRaw, hRaw)) screen = (.str wRaw, .str hRaw) ∧
    resolveResolution none screen = (.int (screen.1 : ℤ), .int (screen.2 : ℤ)) ∧
    ∀ s n, PyVal.str s ≠ PyVal.int n :=
  ⟨rfl, rfl, fun _ _ h => PyVal.noConfusion h⟩

/-- C3 (amended): when the save raises OSError the failure is logged at error
level (40) and the save is attempted exactly once, not retried; but the
exception is swallowed inside writeImageToDisk, so a completed feed run always
has exit status zero. -/
theorem writeImageToDisk_failure (env : Env) (item : Item) (evs : List Ev)
    (h : processItem env item = .ok evs) :
    (savePaths evs).length = 1 ∧
    (∀ p, Ev.save p "JPEG" 95 false ∈ evs → Ev.log 40 .couldNotSave ∈ evs) ∧
    (∀ entries count r, mainRss env entries count = .ok r → r.1 = 0) := by
  rcases processItem_ok env item evs h with ⟨fn, hr, rfl⟩
  refine ⟨by rw [savePaths_itemEvents]; rfl, ?_, ?_⟩
  · intro p hp
    exact save_false_logged_itemEvents env item fn p hp
  · intro entries count r hm
    exact mainRss_exit_zero env entries count r hm

/-- Witness for C3 on envFail and sampleItem. -/
theorem writeImageToDisk_failure_witness :
    (savePaths (itemEvents envFail sampleItem "f.jpg")).length = 1 ∧
    (∀ p, Ev.save p "JPEG" 95 false ∈ itemEvents envFail sampleItem "f.jpg" →
      Ev.log 40 .couldNotSave ∈ itemEvents envFail sampleItem "f.jpg") ∧
    (∀ entries count r, mainRss envFail entries count = .ok r → r.1 = 0) :=
  writeImageToDisk_failure envFail sampleItem (itemEvents envFail sampleItem "f.jpg")
    (processItem_eval envFail sampleItem "f.jpg" rfl)

theorem sampleFeed_items : getRssItems sampleFeed 1 = .ok [sampleFeedItem] := by
  simp [getRssItems, getRssItemsAux, sampleFeed, sampleFeedItem, flattenDescription,
    pySplitlines, pySplitlinesAux, joinWith]
  rfl

/-- Counterexample for C3 as stated: with the save raising OSError on the one
item of sampleFeed, the failed save happens exactly once and yet the run
completes with exit status zero rather than non-zero. -/
theorem writeImageToDisk_failure_cex :
    exitCode (mainRss envFail sampleFeed 1) = some 0 ∧
    failedSaves (runEvents (mainRss envFail sampleFeed 1)) = 1 := by
  have hmain := mainRss_single envFail sampleFeed sampleFeedItem "f.jpg" sampleFeed_items rfl
  rw [hmain]
  refine ⟨rfl, ?_⟩
  show failedSaves (itemEvents envFail sampleFeedItem "f.jpg") = 1
  simp [failedSaves, itemEvents, renderDescriptionEvents, writeImageToDisk, envFail]

/-- C4 (amended): the declared enclosure size is parsed and carried in the
item but never compared to the downloaded byte count: a feed item's trace
contains no warning-level (30) event, the file is still written (exactly one
save), and the events do not depend on the declared size at all. -/
theorem sizeMismatch_no_warning (env : Env) (item : Item) (evs : List Ev)
    (h : processItem env item = .ok evs) :
    (∀ lvl tag, Ev.log lvl tag ∈ evs → lvl ≠ 30) ∧
    (savePaths evs).length = 1 ∧
    (∀ s, processItem env { item with size := s } = .ok evs) := by
  rcases processItem_ok env item evs h with ⟨fn, hr, rfl⟩
  refine ⟨?_, by rw [savePaths_itemEvents]; rfl, ?_⟩
  · intro lvl tag hmem
    rcases log_levels_itemEvents env item fn lvl tag hmem with h1 | h1 | h1 <;> omega
  · intro s
    rw [processItem_size_ignored]
    exact processItem_eval env item fn hr

/-- Witness for C4 on envWarn and sampleItem. -/
theorem sizeMismatch_no_warning_witness :
    (∀ lvl tag, Ev.log lvl tag ∈ itemEvents envWarn sampleItem "f.jpg" → lvl ≠ 30) ∧
    (savePaths (itemEvents envWarn sampleItem "f.jpg")).length = 1 ∧
    (∀ s, processItem envWarn { sampleItem with size := s }
      = .ok (itemEvents envWarn sampleItem "f.jpg")) :=
  sizeMismatch_no_warning envWarn sampleItem (itemEvents envWarn sampleItem "f.jpg")
    (processItem_eval envWarn sampleItem "f.jpg" rfl)

/-- Counterexample for C4 as stated: the feed declares 500000 bytes, the
download yields 499000 bytes, yet no warning is emitted: the run proceeds and
the file is written at its usual path. -/
theorem sizeMismatch_no_warning_cex :
    envWarn.fetchedSize sampleItem.url = 499000 ∧
    sampleItem.size = "500000" ∧
    warnCount (okEvents (processItem envWarn sampleItem)) = 0 ∧
    savePaths (okEvents (processItem envWarn sampleItem)) = ["/d/f.jpg"] := by
  refine ⟨rfl, rfl, ?_, ?_⟩
  · rw [processItem_eval envWarn sampleItem "f.jpg" rfl]
    show warnCount (itemEvents envWarn sampleItem "f.jpg") = 0
    simp [warnCount, itemEvents, renderDescriptionEvents, writeImageToDisk, envWarn, envFail]
  · rw [processItem_eval envWarn sampleItem "f.jpg" rfl]
    show savePaths (itemEvents envWarn sampleItem "f.jpg") = ["/d/f.jpg"]
    rw [savePaths_itemEvents]
    rfl

theorem savePaths_append (a b : List Ev) : savePaths (a ++ b) = savePaths a ++ savePaths b :=
  List.filterMap_append a b _

theorem saveFormats_append (a b : List Ev) :
    saveFormats (a ++ b) = saveFormats a ++ saveFormats b :=
  List.filterMap_append a b _

/-- C6 (amended): the writer always encodes as JPEG at quality 95.  In the
feed path the destination is always the configured directory (defaulting to
the working directory) joined with the url's final path segment, and the
events do not depend on --output-file at all; in the input-file path an
explicit --output-file is honoured, and without one the image goes to the
configured directory joined with the input file's basename. -/
theorem writer_paths (env : Env) (item : Item) (evs : List Ev)
    (h : processItem env item = .ok evs) :
    (∃ fn, rsplitLast item.url = .ok fn ∧
      savePaths evs = [osPathJoin (env.directoryArg.getD env.pwd) fn] ∧
      saveFormats evs = [("JPEG", 95)]) ∧
    (∀ o, processItem { env with outputFileArg := o } item = .ok evs) ∧
    (∀ o inputFile, env.outputFileArg = some o →
      savePaths (runEvents (mainInput env inputFile)) = [o] ∧
      saveFormats (runEvents (mainInput env inputFile)) = [("JPEG", 95)]) ∧
    (∀ inputFile d, env.outputFileArg = none → env.directoryArg = some d →
      savePaths (runEvents (mainInput env inputFile))
        = [osPathJoin d (pyBasename inputFile)] ∧
      saveFormats (runEvents (mainInput env inputFile)) = [("JPEG", 95)]) := by
  rcases processItem_ok env item evs h with ⟨fn, hr, rfl⟩
  refine ⟨⟨fn, hr, savePaths_itemEvents env item fn, saveFormats_itemEvents env item fn⟩,
    ?_, ?_, ?_⟩
  · intro o
    have heq : processItem { env with outputFileArg := o } item = processItem env item := rfl
    rw [heq]
    exact processItem_eval env item fn hr
  · intro o inputFile ho
    unfold mainInput
    rw [ho]
    dsimp only
    show savePaths ([Ev.resize _] ++ writeImageToDisk (env.saveOk o) o) = [o] ∧
      saveFormats ([Ev.resize _] ++ writeImageToDisk (env.saveOk o) o) = [("JPEG", 95)]
    rw [savePaths_append, saveFormats_append]
    unfold writeImageToDisk
    split <;> simp [savePaths, saveFormats]
  · intro inputFile d hnone hd
    unfold mainInput
    rw [hnone]
    dsimp only
    rw [hd]
    dsimp only
    show savePaths ([Ev.resize _]
        ++ writeImageToDisk (env.saveOk (osPathJoin d (pyBasename inputFile)))
          (osPathJoin d (pyBasename inputFile)))
        = [osPathJoin d (pyBasename inputFile)] ∧
      saveFormats ([Ev.resize _]
        ++ writeImageToDisk (env.saveOk (osPathJoin d (pyBasename inputFile)))
          (osPathJoin d (pyBasename inputFile))) = [("JPEG", 95)]
    rw [savePaths_append, saveFormats_append]
    unfold writeImageToDisk
    split <;> simp [savePaths, saveFormats]

/-- Witness for C6 on envOut and sampleItem. -/
theorem writer_paths_witness :
    (∃ fn, rsplitLast sampleItem.url = .ok fn ∧
      savePaths (itemEvents envOut sampleItem "f.jpg")
        = [osPathJoin (envOut.directoryArg.getD envOut.pwd) fn] ∧
      saveFormats (itemEvents envOut sampleItem "f.jpg") = [("JPEG", 95)]) ∧
    (∀ o, processItem { envOut with outputFileArg := o } sampleItem
      = .ok (itemEvents envOut sampleItem "f.jpg")) ∧
    (∀ o inputFile, envOut.outputFileArg = some o →
      savePaths (runEvents (mainInput envOut inputFile)) = [o] ∧
      saveFormats (runEvents (mainInput envOut inputFile)) = [("JPEG", 95)]) ∧
    (∀ inputFile d, envOut.outputFileArg = none → envOut.directoryArg = some d →
      savePaths (runEvents (mainInput envOut inputFile))
        = [osPathJoin d (pyBasename inputFile)] ∧
      saveFormats (runEvents (mainInput envOut inputFile)) = [("JPEG", 95)]) :=
  writer_paths envOut sampleItem (itemEvents envOut sampleItem "f.jpg")
    (processItem_eval envOut sampleItem "f.jpg" rfl)

/-- Counterexample for C6 as stated: --output-file is "/o.jpg", but the feed
path writes to "/d/f.jpg", the configured directory joined with the url's
final path segment. -/
theorem writer_paths_cex :
    envOut.outputFileArg = some "/o.jpg" ∧
    savePaths (okEvents (processItem envOut sampleItem)) = ["/d/f.jpg"] ∧
    ("/d/f.jpg" : String) ≠ "/o.jpg" := by
  refine ⟨rfl, ?_, by decide⟩
  rw [processItem_eval envOut sampleItem "f.jpg" rfl]
  show savePaths (itemEvents envOut sampleItem "f.jpg") = ["/d/f.jpg"]
  rw [savePaths_itemEvents]
  rfl

/-- C8 (amended): in the feed path compositing comes first: the paste event
precedes the overlay event, and the overlay draws on the full-resolution
canvas, re-flowing the description to the canvas width and anchoring it ten
pixels above the canvas bottom, not on the resized image. -/
theorem overlay_after_composite (env : Env) (item : Item) (evs : List Ev)
    (h : processItem env item = .ok evs) :
    ∃ pre post, evs = pre ++
        [Ev.overlay (env.resolution.1, env.resolution.2) (env.resolution.1 : ℚ)
          ((env.resolution.2 : ℤ) - 10)
          (reflowText item.desc (env.resolution.1 : ℚ) env.fontWidth)] ++ post ∧
      ∃ origin, Ev.paste origin ∈ pre := by
  rcases processItem_ok env item evs h with ⟨fn, hr, rfl⟩
  refine ⟨[.log 20 .processing, .log 10 .origSize,
      .resize (thumbnailSize (env.decode item.url) env.resolution), .log 10 .thumbSize,
      .newImage (env.resolution.1, env.resolution.2) (0, 0, 0), .log 10 .matteSize,
      .paste (nasaOrigin env.resolution.1 env.resolution.2
        (thumbnailSize (env.decode item.url) env.resolution).1
        (thumbnailSize (env.decode item.url) env.resolution).2),
      .log 10 .reflowDebug],
    writeImageToDisk (env.saveOk (osPathJoin (env.directoryArg.getD env.pwd) fn))
      (osPathJoin (env.directoryArg.getD env.pwd) fn), ?_, ?_⟩
  · simp [itemEvents, renderDescriptionEvents]
  · exact ⟨nasaOrigin env.resolution.1 env.resolution.2
      (thumbnailSize (env.decode item.url) env.resolution).1
      (thumbnailSize (env.decode item.url) env.resolution).2, by simp⟩

/-- Witness for C8 on envFail and sampleItem. -/
theorem overlay_after_composite_witness :
    ∃ pre post, itemEvents envFail sampleItem "f.jpg" = pre ++
        [Ev.overlay (envFail.resolution.1, envFail.resolution.2) (envFail.resolution.1 : ℚ)
          ((envFail.resolution.2 : ℤ) - 10)
          (reflowText sampleItem.desc (envFail.resolution.1 : ℚ) envFail.fontWidth)] ++ post ∧
      ∃ origin, Ev.paste origin ∈ pre :=
  overlay_after_composite envFail sampleItem (itemEvents envFail sampleItem "f.jpg")
    (processItem_eval envFail sampleItem "f.jpg" rfl)

theorem envWide_thumb : thumbnailSize (4000, 3000) (1920, 1080) = (1440, 1080) := by
  rw [thumbnailSize_def]
  rw [if_neg (by norm_num)]
  push_cast
  rw [if_pos (by norm_num)]
  have hq : (1080 : ℚ) * (4000 / 3000) = 1440 := by norm_num
  rw [hq]
  have hfl : ⌊(1440 : ℚ)⌋ = 1440 := by norm_num
  have hcl : ⌈(1440 : ℚ)⌉ = 1440 := by
    rw [Int.ceil_eq_iff]
    norm_num
  unfold roundAspect
  rw [hfl, hcl]
  norm_num
  decide

/-- Counterexample for C8 as stated: with a 4000 by 3000 source on a 1920 by
1080 canvas the image is resized to 1440 by 1080, yet the overlay is re-flowed
to width 1920 (the canvas width, not the resized width 1440), and the paste
event (index 6) precedes the overlay event (index 8) in the trace. -/
theorem overlay_after_composite_cex :
    resizeSizes (okEvents (processItem envWide sampleItem)) = [(1440, 1080)] ∧
    overlayWidths (okEvents (processItem envWide sampleItem)) = [(1920 : ℚ)] ∧
    (1920 : ℚ) ≠ (1440 : ℚ) ∧
    pasteIdx (okEvents (processItem envWide sampleItem)) = some 6 ∧
    overlayIdx (okEvents (processItem envWide sampleItem)) = some 8 ∧
    6 < 8 := by
  have hp := processItem_eval envWide sampleItem "f.jpg" rfl
  rw [hp]
  refine ⟨?_, ?_, by norm_num, ?_, ?_, by norm_num⟩ <;>
    simp [okEvents, resizeSizes, overlayWidths, pasteIdx, overlayIdx, itemEvents,
      renderDescriptionEvents, writeImageToDisk, envWide, envFail, envWide_thumb,
      List.findIdx?_cons, List.findIdx?_nil]

/-- Counterexample for C5 as stated: the claim quantifies over every parsed
feed, but on a feed whose first entry has no description getRssItems raises
AttributeError instead of returning a list of items. -/
theorem getRssItems_correct_cex :
    getRssItems sampleBadEntries 1 = .error .attributeError ∧
    (getRssItems sampleBadEntries 1).isOk = false :=
  ⟨rfl, rfl⟩
